import Mathlib

/-!
Shallow embedding of `paiwan_translation_api.py`: the vocabulary-index
builder, the fuzzy scan, the dedup/join finish, the content extractors for
both directions, and the translate orchestration with its fallback path.
Python dicts are modelled as insertion-ordered association lists, the
external similarity metric (`fuzz.ratio` composed with lowering) as an
abstract function, and the fallible external calls (ollama embeddings,
qdrant search) as `Except Unit` values.
-/

/-- Python dict from word to list of meanings, insertion-ordered. -/
abbrev Dict := List (String × List String)

/-- Python `str.strip()` on the underlying character list: drop whitespace
from the front and from the back. -/
def stripList (l : List Char) : List Char :=
  List.rdropWhile Char.isWhitespace (List.dropWhile Char.isWhitespace l)

/-- Python `str.strip()`. -/
def pyStrip (s : String) : String :=
  String.mk (stripList s.toList)

/-- Chars-level check that `q` is a prefix of `l` (Python `startswith` on lists). -/
def listPref : List Char → List Char → Bool
| [], _ => true
| _ :: _, [] => false
| a :: as, b :: bs => a = b && listPref as bs

/-- Chars-level check that `q` occurs inside `l` (substring occurrence). -/
def listSub (q : List Char) : List Char → Bool
| [] => listPref q []
| l@(_ :: rest) => listPref q l || listSub q rest

/-- Python `query in line`: substring containment by code points. -/
def strContains (line query : String) : Bool :=
  listSub query.toList line.toList

/-- Python `line.startswith(pre)`. -/
def pyStartsWith (line pre : String) : Bool :=
  listPref pre.toList line.toList

/-- Python `s[n:]`: drop the first `n` code points. -/
def pyDropChars (s : String) (n : Nat) : String :=
  String.mk (s.toList.drop n)

/-- Python `content.split('\n')` on the character list; `cur` holds the
current line reversed. -/
def splitNl : List Char → List Char → List String
| [], cur => [String.mk cur.reverse]
| c :: rest, cur =>
    if c = '\n' then String.mk cur.reverse :: splitNl rest []
    else splitNl rest (c :: cur)

/-- Python `content.split('\n')`. -/
def pySplitNl (content : String) : List String :=
  splitNl content.toList []

/-- Python `sep.join(parts)`. -/
def pyJoin (sep : String) : List String → String
| [] => ""
| [x] => x
| x :: y :: rest => x ++ sep ++ pyJoin sep (y :: rest)

/-- The dict-update fragment of `_build_vocabulary_dict`:
`if k not in d: d[k] = []` then `if v not in d[k]: d[k].append(v)`. -/
def addMeaning (d : Dict) (k v : String) : Dict :=
  let d1 := if (List.lookup k d).isSome then d else d ++ [(k, [])]
  d1.map (fun p => if p.1 = k then (p.1, if v ∈ p.2 then p.2 else p.2 ++ [v]) else p)

/-- A raw JSON entry of the word list: either an object whose `paiwan` /
`chinese` fields may be absent (`entry.get(..., "")`), or a value on which
reading the fields raises (non-dict entry, non-string field). -/
inductive RawEntry : Type
| obj (paiwan chinese : Option String) : RawEntry
| malformed : RawEntry

/-- The entry loop of `_build_vocabulary_dict`, shared by both directions
(`swapKV = false`: paiwan→chinese keys paiwan; `swapKV = true`:
chinese→paiwan keys chinese). A `malformed` entry raises inside the loop;
the surrounding `try`/`except` catches it and the partial dict built so far
is returned, the remaining entries unprocessed. -/
def buildVocabLoop (swapKV : Bool) : List RawEntry → Dict → Dict
| [], d => d
| RawEntry.malformed :: _, d => d
| RawEntry.obj p c :: rest, d =>
    let paiwan_word := pyStrip (p.getD "")
    let chinese_meaning := pyStrip (c.getD "")
    if paiwan_word = "" ∨ chinese_meaning = "" then buildVocabLoop swapKV rest d
    else if chinese_meaning = "[虛]" ∨ chinese_meaning = "[虛" then buildVocabLoop swapKV rest d
    else if swapKV then buildVocabLoop swapKV rest (addMeaning d chinese_meaning paiwan_word)
    else buildVocabLoop swapKV rest (addMeaning d paiwan_word chinese_meaning)

/-- `PaiwanToChineseTranslator._build_vocabulary_dict` applied to a decoded
entry list (keys are paiwan words, values chinese meanings). -/
def buildVocabularyDict_p2c (entries : List RawEntry) : Dict :=
  buildVocabLoop false entries []

/-- `ChineseToPaiwanTranslator._build_vocabulary_dict` applied to a decoded
entry list (keys are chinese meanings, values paiwan words). -/
def buildVocabularyDict_c2p (entries : List RawEntry) : Dict :=
  buildVocabLoop true entries []

/-- The fuzzy-match loop of `translate`: scans dict items in order, carrying
`best_score` and the accumulator `all_translations`. `ratio` stands for
`fuzz.ratio`; the code lowers both sides before scoring but compares the raw
key against the raw query. -/
def fuzzyScan (ratio : String → String → Nat) (text : String) :
    Dict → Nat → List String → Nat × List String
| [], best, acc => (best, acc)
| (word, translations) :: rest, best, acc =>
    let similarity := ratio text.toLower word.toLower
    if similarity > 80 ∧ word ≠ text then
      if similarity > best then fuzzyScan ratio text rest similarity (acc ++ translations)
      else fuzzyScan ratio text rest best acc
    else fuzzyScan ratio text rest best acc

/-- The dedup loop of `translate`: trims each element, drops empties, keeps
first occurrences (the `seen` set holds exactly the accumulator's members). -/
def dedupKeepOrder : List String → List String → List String
| [], acc => acc
| tr :: rest, acc =>
    let trans_clean := pyStrip tr
    if trans_clean ≠ "" ∧ trans_clean ∉ acc then dedupKeepOrder rest (acc ++ [trans_clean])
    else dedupKeepOrder rest acc

/-- The tail of `translate`: dedup then join with ", ", or echo the input. -/
def translateFinish (allT : List String) (text : String) : String :=
  let unique_translations := dedupKeepOrder allT []
  if unique_translations ≠ [] then pyJoin ", " unique_translations else text

/-- Steps 1–3 of `translate`: exact lookup, fuzzy scan, and — only when the
accumulator is empty — the fallback path. `ollamaEmbed` is the outcome of
`create_ollama_embeddings` (its failure is caught and `mockEmbed`, the
`create_mock_embeddings` vector, is used instead); `search` is
`qdrant.search_similar`, whose failure is NOT caught and propagates;
`extractFn` is the direction's `_extract_translation_from_content`. -/
def translateAcc {V : Type} (vocab : Dict) (ratio : String → String → Nat)
    (extractFn : String → String → String)
    (ollamaEmbed : Except Unit V) (mockEmbed : V)
    (search : V → Except Unit (List String))
    (text : String) : Except Unit (List String) :=
  let exact := (List.lookup text vocab).getD []
  let all_translations := (fuzzyScan ratio text vocab 0 exact).2
  if all_translations = [] then
    let query_vector := match ollamaEmbed with
      | Except.ok v => v
      | Except.error _ => mockEmbed
    match search query_vector with
    | Except.error e => Except.error e
    | Except.ok results =>
      match results with
      | [] => Except.ok all_translations
      | content :: _ =>
        let translation := extractFn text content
        if translation ≠ "" then Except.ok (all_translations ++ [translation])
        else Except.ok all_translations
  else Except.ok all_translations

/-- `translate`, both directions, parameterized by the direction's extractor:
an `Except.error` outcome is an exception escaping `translate`. -/
def translateCore {V : Type} (vocab : Dict) (ratio : String → String → Nat)
    (extractFn : String → String → String)
    (ollamaEmbed : Except Unit V) (mockEmbed : V)
    (search : V → Except Unit (List String))
    (text : String) : Except Unit String :=
  match translateAcc vocab ratio extractFn ollamaEmbed mockEmbed search text with
  | Except.error e => Except.error e
  | Except.ok allT => Except.ok (translateFinish allT text)

/-- `PaiwanToChineseTranslator._extract_translation_from_content` line loop:
`prev` is the line before the current one, when it exists. -/
def extractGo_p2c (query : String) : Option String → List String → String
| _, [] => ""
| prev, line :: rest =>
    if pyStartsWith line "排灣語：" && strContains line query then
      match prev with
      | some p =>
        if pyStartsWith p "中文：" then pyStrip (pyDropChars p 3)
        else extractGo_p2c query (some line) rest
      | none => extractGo_p2c query (some line) rest
    else extractGo_p2c query (some line) rest

/-- `PaiwanToChineseTranslator._extract_translation_from_content`. -/
def extractTranslation_p2c (query content : String) : String :=
  extractGo_p2c query none (pySplitNl content)

/-- `ChineseToPaiwanTranslator._extract_translation_from_content` line loop:
the counterpart is the next line. -/
def extractGo_c2p (query : String) : List String → String
| [] => ""
| [_] => ""
| line :: next :: rest =>
    if pyStartsWith line "中文：" && strContains line query then
      if pyStartsWith next "排灣語：" then pyStrip (pyDropChars next 4)
      else extractGo_c2p query (next :: rest)
    else extractGo_c2p query (next :: rest)

/-- `ChineseToPaiwanTranslator._extract_translation_from_content`. -/
def extractTranslation_c2p (query content : String) : String :=
  extractGo_c2p query (pySplitNl content)

/-- `PaiwanToChineseTranslator.translate`. -/
def translate_p2c {V : Type} (vocab : Dict) (ratio : String → String → Nat)
    (ollamaEmbed : Except Unit V) (mockEmbed : V)
    (search : V → Except Unit (List String)) (text : String) : Except Unit String :=
  translateCore vocab ratio extractTranslation_p2c ollamaEmbed mockEmbed search text

/-- `ChineseToPaiwanTranslator.translate`. -/
def translate_c2p {V : Type} (vocab : Dict) (ratio : String → String → Nat)
    (ollamaEmbed : Except Unit V) (mockEmbed : V)
    (search : V → Except Unit (List String)) (text : String) : Except Unit String :=
  translateCore vocab ratio extractTranslation_c2p ollamaEmbed mockEmbed search text

/-- Spec-side first-occurrence filter: keep the first occurrence of each
value, preserving the order in which distinct values first appear. -/
def firstOccur : List String → List String
| [] => []
| x :: xs => x :: (firstOccur xs).filter (fun y => decide (y ≠ x))

/-- Spec-side dedup pipeline, following the spec's words: trim each
candidate string, drop empty strings, keep first occurrences only. -/
def specDedup (l : List String) : List String :=
  firstOccur ((l.map pyStrip).filter (fun s => decide (s ≠ "")))

/-! ### Helper lemmas about stripping -/

theorem dropWhile_eq_self_of_head (p : Char → Bool) (l : List Char)
    (h : ∀ (w : l ≠ []), p (l.head w) = false) : List.dropWhile p l = l := by
  cases l with
  | nil => rfl
  | cons a t =>
    have ha := h (by simp)
    simp only [List.head_cons] at ha
    simp [List.dropWhile_cons, ha]

theorem dropWhile_stripList (l : List Char) :
    List.dropWhile Char.isWhitespace (stripList l) = stripList l := by
  apply dropWhile_eq_self_of_head
  intro w
  have hpre : stripList l <+: List.dropWhile Char.isWhitespace l := by
    unfold stripList
    exact List.rdropWhile_prefix _ _
  obtain ⟨t, ht⟩ := hpre
  have hne : List.dropWhile Char.isWhitespace l ≠ [] := by
    rw [← ht]
    intro hc
    exact w (List.append_eq_nil.mp hc).1
  set x := (stripList l).head w with hx
  set y := (List.dropWhile Char.isWhitespace l).head hne with hy
  have hA : (stripList l).head? = some x := List.head?_eq_head w
  have hC : (List.dropWhile Char.isWhitespace l).head? = some y := List.head?_eq_head hne
  have hh : Char.isWhitespace y = false := by
    rw [hy]
    exact List.head_dropWhile_not Char.isWhitespace l hne
  rw [← ht] at hC
  cases hs : stripList l with
  | nil => exact absurd hs w
  | cons a s =>
    rw [hs] at hA hC
    simp only [List.cons_append, List.head?_cons] at hA hC
    injection hA with hA'
    injection hC with hC'
    rw [← hA', hC']
    exact hh

theorem stripList_idem (l : List Char) : stripList (stripList l) = stripList l := by
  show List.rdropWhile Char.isWhitespace
      (List.dropWhile Char.isWhitespace (stripList l)) = stripList l
  rw [dropWhile_stripList]
  exact List.rdropWhile_idempotent _ _

theorem pyStrip_idem (s : String) : pyStrip (pyStrip s) = pyStrip s :=
  congrArg String.mk (stripList_idem s.toList)

/-! ### Helper lemmas about joining -/

theorem pyJoin_ne_of_ne (x : String) (xs : List String) (hx : x ≠ "") :
    pyJoin ", " (x :: xs) ≠ "" := by
  cases xs with
  | nil => simpa [pyJoin] using hx
  | cons y ys =>
    show x ++ ", " ++ pyJoin ", " (y :: ys) ≠ ""
    intro h
    have h2 : ((x ++ ", ") ++ pyJoin ", " (y :: ys)).data = ("" : String).data := by
      rw [h]
    simp only [String.data_append] at h2
    have h3 := List.append_eq_nil.mp h2
    have h4 := List.append_eq_nil.mp h3.1
    exact absurd h4.2 (by decide)

/-! ### Helper lemmas about the fuzzy scan -/

theorem fuzzyScan_acc_extends (ratio : String → String → Nat) (text : String) :
    ∀ (l : Dict) (best : Nat) (acc : List String),
      ∃ ext, (fuzzyScan ratio text l best acc).2 = acc ++ ext := by
  intro l
  induction l with
  | nil => exact fun best acc => ⟨[], by simp [fuzzyScan]⟩
  | cons p rest ih =>
    intro best acc
    obtain ⟨word, translations⟩ := p
    simp only [fuzzyScan]
    by_cases h1 : ratio text.toLower word.toLower > 80 ∧ word ≠ text
    · rw [if_pos h1]
      by_cases h2 : ratio text.toLower word.toLower > best
      · rw [if_pos h2]
        obtain ⟨ext, hext⟩ := ih (ratio text.toLower word.toLower) (acc ++ translations)
        exact ⟨translations ++ ext, by rw [hext, List.append_assoc]⟩
      · rw [if_neg h2]; exact ih best acc
    · rw [if_neg h1]; exact ih best acc

theorem fuzzyScan_no_candidate (ratio : String → String → Nat) (text : String) :
    ∀ (l : Dict) (best : Nat) (acc : List String),
      (∀ p ∈ l, ¬(ratio text.toLower p.1.toLower > 80 ∧ p.1 ≠ text)) →
      fuzzyScan ratio text l best acc = (best, acc) := by
  intro l
  induction l with
  | nil => intro best acc _; simp [fuzzyScan]
  | cons p rest ih =>
    intro best acc h
    obtain ⟨word, translations⟩ := p
    have hw := h (word, translations) (by simp)
    simp only [fuzzyScan]
    rw [if_neg hw]
    exact ih best acc (fun q hq => h q (by simp [hq]))

/-! ### Helper lemmas about the dedup loop -/

theorem dedup_mem_acc : ∀ (l acc : List String) (m : String),
    m ∈ acc → m ∈ dedupKeepOrder l acc := by
  intro l
  induction l with
  | nil => intro acc m h; simpa [dedupKeepOrder] using h
  | cons t rest ih =>
    intro acc m h
    simp only [dedupKeepOrder]
    split
    · exact ih _ m (List.mem_append.mpr (Or.inl h))
    · exact ih _ m h

theorem dedup_mem_of_mem : ∀ (l acc : List String) (m : String),
    m ∈ l → pyStrip m = m → m ≠ "" → m ∈ dedupKeepOrder l acc := by
  intro l
  induction l with
  | nil => intro acc m h _ _; cases h
  | cons t rest ih =>
    intro acc m hm hstrip hne
    rcases List.mem_cons.mp hm with heq | hmem
    · subst heq
      simp only [dedupKeepOrder, hstrip]
      by_cases hacc : m ∈ acc
      · rw [if_neg (by simp [hacc])]
        exact dedup_mem_acc rest acc m hacc
      · rw [if_pos ⟨hne, hacc⟩]
        exact dedup_mem_acc rest (acc ++ [m]) m (List.mem_append.mpr (Or.inr (by simp)))
    · simp only [dedupKeepOrder]
      split
      · exact ih _ m hmem hstrip hne
      · exact ih _ m hmem hstrip hne

theorem dedup_elems_ne : ∀ (l acc : List String),
    (∀ x ∈ acc, x ≠ "") → ∀ x ∈ dedupKeepOrder l acc, x ≠ "" := by
  intro l
  induction l with
  | nil => intro acc h; simpa [dedupKeepOrder] using h
  | cons t rest ih =>
    intro acc h
    simp only [dedupKeepOrder]
    split
    · rename_i hcond
      refine ih _ ?_
      intro x hx
      rcases List.mem_append.mp hx with h1 | h2
      · exact h x h1
      · simp only [List.mem_singleton] at h2
        subst h2
        exact hcond.1
    · exact ih _ h

/-! ### Helper lemmas about the resolver -/

theorem translateAcc_of_nonempty {V : Type} (vocab : Dict) (ratio : String → String → Nat)
    (extractFn : String → String → String) (oe : Except Unit V) (me : V)
    (search : V → Except Unit (List String)) (text : String)
    (h : (fuzzyScan ratio text vocab 0 ((List.lookup text vocab).getD [])).2 ≠ []) :
    translateAcc vocab ratio extractFn oe me search text =
      Except.ok (fuzzyScan ratio text vocab 0 ((List.lookup text vocab).getD [])).2 := by
  simp only [translateAcc]
  rw [if_neg h]

theorem translateFinish_shape (allT : List String) (text : String) :
    translateFinish allT text = text ∨
    ∃ x xs, translateFinish allT text = pyJoin ", " (x :: xs) ∧ x ≠ "" := by
  cases hu : dedupKeepOrder allT [] with
  | nil => left; simp [translateFinish, hu]
  | cons x xs =>
    right
    refine ⟨x, xs, by simp [translateFinish, hu], ?_⟩
    refine dedup_elems_ne allT [] ?_ x ?_
    · intro z hz; cases hz
    · rw [hu]; exact List.mem_cons_self x xs

theorem translateCore_ok_shape {V : Type} (vocab : Dict) (ratio : String → String → Nat)
    (extractFn : String → String → String) (oe : Except Unit V) (me : V)
    (search : V → Except Unit (List String)) (text s : String)
    (h : translateCore vocab ratio extractFn oe me search text = Except.ok s) :
    s = text ∨ ∃ x xs, s = pyJoin ", " (x :: xs) ∧ x ≠ "" := by
  unfold translateCore at h
  cases hacc : translateAcc vocab ratio extractFn oe me search text with
  | error e => rw [hacc] at h; cases h
  | ok allT =>
    rw [hacc] at h
    have h' : Except.ok (ε := Unit) (translateFinish allT text) = Except.ok s := h
    injection h' with hs
    rcases translateFinish_shape allT text with h1 | ⟨x, xs, h2, h3⟩
    · left; rw [← hs, h1]
    · right; exact ⟨x, xs, by rw [← hs, h2], h3⟩

theorem translateAcc_identity_case {V : Type} (vocab : Dict) (ratio : String → String → Nat)
    (extractFn : String → String → String) (oe : Except Unit V) (me : V)
    (search : V → Except Unit (List String)) (text : String)
    (hlook : List.lookup text vocab = none)
    (hnofuzzy : ∀ p ∈ vocab, ¬(ratio text.toLower p.1.toLower > 80 ∧ p.1 ≠ text))
    (hsearch : ∀ v, search v = Except.ok []) :
    translateAcc vocab ratio extractFn oe me search text = Except.ok [] := by
  simp only [translateAcc, hlook, Option.getD_none]
  rw [fuzzyScan_no_candidate ratio text vocab 0 [] hnofuzzy]
  simp [hsearch]

/-! ### Claim C1 -/

/-- C1 counterexample: two distinct keys `k1`, `k2` both scoring the same
maximal similarity 85 (> 80, neither equal to the query): the result is
`"A"` alone — the second tied key's meaning `"B"` does NOT appear, contrary
to the claimed replace-on-strict-improvement / extend-on-tie policy. -/
theorem C1_tie_counterexample :
    translate_p2c [("k1", ["A"]), ("k2", ["B"])] (fun _ _ => 85) (Except.ok (0 : Nat)) 0
      (fun _ => Except.ok []) "q" = Except.ok "A" ∧
    strContains "A" "B" = false := ⟨rfl, rfl⟩

/-- C1 (amended): in both directions' fuzzy scans, when a candidate's score
strictly exceeds the best score so far its meanings are APPENDED to the
accumulated result set (the set is not replaced); when its score is ≤ the
best (in particular on a tie) the candidate contributes nothing; hence of
two distinct keys both scoring the same maximal similarity only the
first-scanned key's meanings appear in the result. -/
theorem C1_fuzzy_accumulation :
    (∀ (ratio : String → String → Nat) (text word : String) (translations : List String)
        (rest : Dict) (best : Nat) (acc : List String),
        ratio text.toLower word.toLower > 80 → word ≠ text →
        ratio text.toLower word.toLower > best →
        fuzzyScan ratio text ((word, translations) :: rest) best acc =
          fuzzyScan ratio text rest (ratio text.toLower word.toLower) (acc ++ translations)) ∧
    (∀ (ratio : String → String → Nat) (text word : String) (translations : List String)
        (rest : Dict) (best : Nat) (acc : List String),
        ratio text.toLower word.toLower ≤ best →
        fuzzyScan ratio text ((word, translations) :: rest) best acc =
          fuzzyScan ratio text rest best acc) ∧
    translate_p2c [("w1", ["A"]), ("w2", ["B"])] (fun _ _ => 85) (Except.ok (0 : Nat)) 0
      (fun _ => Except.ok []) "zz" = Except.ok "A" := by
  refine ⟨?_, ?_, ?_⟩
  · intro ratio text word translations rest best acc h80 hne hbest
    simp only [fuzzyScan]
    rw [if_pos ⟨h80, hne⟩, if_pos hbest]
  · intro ratio text word translations rest best acc hle
    simp only [fuzzyScan]
    by_cases h1 : ratio text.toLower word.toLower > 80 ∧ word ≠ text
    · rw [if_pos h1, if_neg (by omega)]
    · rw [if_neg h1]
  · rfl

theorem C1_fuzzy_accumulation_witness :
    fuzzyScan (fun _ _ => 85) "zz" [("w1", ["A"])] 0 [] =
      fuzzyScan (fun _ _ => 85) "zz" [] 85 ["A"] ∧
    fuzzyScan (fun _ _ => 85) "zz" [("w1", ["A"])] 90 ["X"] =
      fuzzyScan (fun _ _ => 85) "zz" [] 90 ["X"] := by
  constructor
  · simpa using C1_fuzzy_accumulation.1 (fun _ _ => 85) "zz" "w1" ["A"] [] 0 []
      (by decide) (by decide) (by decide)
  · exact C1_fuzzy_accumulation.2.1 (fun _ _ => 85) "zz" "w1" ["A"] [] 90 ["X"] (by decide)

/-! ### Claim C2 -/

theorem translateCore_isOk_eq {V : Type} (vocab : Dict) (ratio : String → String → Nat)
    (extractFn : String → String → String) (oe : Except Unit V) (me : V)
    (search : V → Except Unit (List String)) (text : String) :
    (translateCore vocab ratio extractFn oe me search text).isOk =
      (translateAcc vocab ratio extractFn oe me search text).isOk := by
  unfold translateCore
  cases hacc : translateAcc vocab ratio extractFn oe me search text with
  | error e => rfl
  | ok allT => rfl

theorem ite_ok_isOk (c : Prop) [Decidable c] (a b : List String) :
    (if c then Except.ok (ε := Unit) a else Except.ok b).isOk = true := by
  split <;> rfl

theorem translateAcc_isOk_of_search {V : Type} (vocab : Dict) (ratio : String → String → Nat)
    (extractFn : String → String → String) (oe : Except Unit V) (me : V)
    (search : V → Except Unit (List String)) (text : String)
    (hsearch : ∀ v, (search v).isOk = true) :
    (translateAcc vocab ratio extractFn oe me search text).isOk = true := by
  cases oe with
  | ok v =>
    simp only [translateAcc]
    split
    · cases hs : search v with
      | error e =>
        have := hsearch v
        rw [hs] at this
        simp [Except.isOk, Except.toBool] at this
      | ok results =>
        cases results with
        | nil => rfl
        | cons c cs => exact ite_ok_isOk _ _ _
    · rfl
  | error u =>
    simp only [translateAcc]
    split
    · cases hs : search me with
      | error e =>
        have := hsearch me
        rw [hs] at this
        simp [Except.isOk, Except.toBool] at this
      | ok results =>
        cases results with
        | nil => rfl
        | cons c cs => exact ite_ok_isOk _ _ _
    · rfl

/-- C2 counterexample: with an empty index (so the fallback path runs) and a
search backend that raises, `translate` raises instead of returning a
string — the vector-search failure is NOT caught. -/
theorem C2_search_raises_counterexample :
    translate_p2c ([] : Dict) (fun _ _ => 0) (Except.ok (0 : Nat)) 0
      (fun _ => Except.error ()) "x" = Except.error () ∧
    ∀ s, (Except.error () : Except Unit String) ≠ Except.ok s :=
  ⟨rfl, fun _ h => Except.noConfusion h⟩

/-- C2 (amended): in the fallback path only the embedding generation is
guarded — a failed `create_ollama_embeddings` is caught and the mock
embedding is used, and `translate` still returns a string whenever the
search backend does not raise; but an exception from the vector search
backend propagates out of `translate`. -/
theorem C2_exception_behavior :
    (∀ (V : Type) (vocab : Dict) (ratio : String → String → Nat)
        (extractFn : String → String → String) (me : V)
        (search : V → Except Unit (List String)) (text : String),
        (∀ v, (search v).isOk = true) →
        (translateCore vocab ratio extractFn (Except.error ()) me search text).isOk = true) ∧
    (∀ (V : Type) (vocab : Dict) (ratio : String → String → Nat)
        (extractFn : String → String → String) (oe : Except Unit V) (me : V)
        (search : V → Except Unit (List String)) (text : String) (e : Unit),
        (fuzzyScan ratio text vocab 0 ((List.lookup text vocab).getD [])).2 = [] →
        search (match oe with | Except.ok v => v | Except.error _ => me) = Except.error e →
        translateCore vocab ratio extractFn oe me search text = Except.error e) := by
  constructor
  · intro V vocab ratio extractFn me search text hsearch
    rw [translateCore_isOk_eq]
    exact translateAcc_isOk_of_search vocab ratio extractFn (Except.error ()) me search text hsearch
  · intro V vocab ratio extractFn oe me search text e hempty hsearch
    unfold translateCore
    have hacc : translateAcc vocab ratio extractFn oe me search text = Except.error e := by
      simp only [translateAcc]
      rw [if_pos hempty, hsearch]
    rw [hacc]

theorem C2_exception_behavior_witness :
    (translateCore ([] : Dict) (fun _ _ => 0) extractTranslation_p2c (Except.error ())
      (0 : Nat) (fun _ => Except.ok []) "x").isOk = true ∧
    translateCore ([] : Dict) (fun _ _ => 0) extractTranslation_p2c (Except.ok (0 : Nat))
      0 (fun _ => Except.error ()) "yz" = Except.error () := by
  constructor
  · exact C2_exception_behavior.1 Nat [] (fun _ _ => 0) extractTranslation_p2c 0
      (fun _ => Except.ok []) "x" (fun _ => rfl)
  · exact C2_exception_behavior.2 Nat [] (fun _ _ => 0) extractTranslation_p2c
      (Except.ok 0) 0 (fun _ => Except.error ()) "yz" () rfl rfl

/-! ### Claim C5 -/

/-- C5: fuzzy threshold boundary — in both directions' scans, a candidate
key whose similarity score is exactly 80 contributes nothing (regardless of
the raw-equality check and of the best score so far), and a key scoring 81
that is not raw-string-equal to the query is included (when 81 beats the
best score so far, its meanings are appended and the best score becomes 81). -/
theorem C5_threshold_boundary (ratio : String → String → Nat) (text word : String)
    (translations : List String) (rest : Dict) (best : Nat) (acc : List String) :
    (ratio text.toLower word.toLower = 80 →
      fuzzyScan ratio text ((word, translations) :: rest) best acc =
        fuzzyScan ratio text rest best acc) ∧
    (ratio text.toLower word.toLower = 81 → word ≠ text → best < 81 →
      fuzzyScan ratio text ((word, translations) :: rest) best acc =
        fuzzyScan ratio text rest 81 (acc ++ translations)) := by
  constructor
  · intro h80
    have hno : ¬(ratio text.toLower word.toLower > 80 ∧ word ≠ text) := by
      rintro ⟨hgt, -⟩
      omega
    simp only [fuzzyScan]
    rw [if_neg hno]
  · intro h81 hne hbest
    simp only [fuzzyScan]
    rw [if_pos ⟨by omega, hne⟩, if_pos (by omega), h81]

theorem C5_threshold_boundary_witness :
    fuzzyScan (fun _ _ => 80) "q" [("k", ["A"])] 0 [] =
      fuzzyScan (fun _ _ => 80) "q" [] 0 [] ∧
    fuzzyScan (fun _ _ => 81) "q" [("k", ["A"])] 0 [] =
      fuzzyScan (fun _ _ => 81) "q" [] 81 ["A"] := by
  constructor
  · exact (C5_threshold_boundary (fun _ _ => 80) "q" "k" ["A"] [] 0 []).1 rfl
  · simpa using (C5_threshold_boundary (fun _ _ => 81) "q" "k" ["A"] [] 0 []).2 rfl
      (by decide) (by decide)

/-! ### Claim C7 -/

/-- C7 counterexample: a query with no exact key and no fuzzy candidate
whose fallback search FAILS (raises) does not return the original input —
`translate` raises instead. -/
theorem C7_failed_search_counterexample :
    translate_c2p ([] : Dict) (fun _ _ => 0) (Except.ok (0 : Nat)) 0
      (fun _ => Except.error ()) "y" = Except.error () ∧
    ∀ s, (Except.error () : Except Unit String) ≠ Except.ok s :=
  ⟨rfl, fun _ h => Except.noConfusion h⟩

/-- C7 (amended): for every query with no exact key match, no fuzzy
candidate above the threshold, and a fallback search that SUCCEEDS with no
hits (the embedding may or may not have failed — a failed embedding only
switches to the mock vector), `translate` returns the original input string
unchanged. (A raising search backend instead propagates, see C2.) -/
theorem C7_identity_fallback {V : Type} (vocab : Dict) (ratio : String → String → Nat)
    (extractFn : String → String → String) (oe : Except Unit V) (me : V)
    (search : V → Except Unit (List String)) (text : String)
    (hlook : List.lookup text vocab = none)
    (hnofuzzy : ∀ p ∈ vocab, ¬(ratio text.toLower p.1.toLower > 80 ∧ p.1 ≠ text))
    (hsearch : ∀ v, search v = Except.ok []) :
    translateCore vocab ratio extractFn oe me search text = Except.ok text := by
  unfold translateCore
  rw [translateAcc_identity_case vocab ratio extractFn oe me search text hlook hnofuzzy hsearch]
  simp [translateFinish, dedupKeepOrder]

theorem C7_identity_fallback_witness :
    translateCore ([] : Dict) (fun _ _ => 0) extractTranslation_c2p (Except.ok (0 : Nat)) 0
      (fun _ => Except.ok []) "qq" = Except.ok "qq" :=
  C7_identity_fallback [] (fun _ _ => 0) extractTranslation_c2p (Except.ok 0) 0
    (fun _ => Except.ok []) "qq" rfl (fun p hp => absurd hp (List.not_mem_nil p)) (fun _ => rfl)

/-! ### Claim C3 -/

/-- C3 counterexample: with paired content listing the query's own-language
line FIRST (`"排灣語：foo\n中文：bar"` for a paiwan→chinese query), the
paiwan→chinese extractor returns `""`, not `"bar"` — it looks for the
counterpart on the PREVIOUS line; and a chinese→paiwan query `"bar"`
against the same content also returns `""`, not `"foo"` — it looks on the
NEXT line. -/
theorem C3_own_language_first_counterexample :
    extractTranslation_p2c "foo" "排灣語：foo\n中文：bar" = "" ∧
    extractTranslation_c2p "bar" "排灣語：foo\n中文：bar" = "" := ⟨rfl, rfl⟩

/-- C3 (amended): the working paired content lists the 中文 (chinese) line
first and the 排灣語 (paiwan) line second — i.e. the query's own-language
line comes first only for the chinese→paiwan direction. On
`"中文：bar\n排灣語：foo"`, a paiwan→chinese query `"foo"` matches the
排灣語 line and returns the PREVIOUS line's text `"bar"`; a chinese→paiwan
query `"bar"` matches the 中文 line and returns the NEXT line's text
`"foo"`. The counterpart label prefix is stripped and whitespace trimmed,
and the result is `""` when no line matches, when the adjacent line is
missing, or when it is mislabeled. -/
theorem C3_extraction_direction :
    extractTranslation_p2c "foo" "中文：bar\n排灣語：foo" = "bar" ∧
    extractTranslation_c2p "bar" "中文：bar\n排灣語：foo" = "foo" ∧
    extractTranslation_p2c "foo" "中文：  bar  \n排灣語：foo" = "bar" ∧
    extractTranslation_c2p "bar" "中文：bar\n排灣語：  foo  " = "foo" ∧
    extractTranslation_p2c "zap" "中文：bar\n排灣語：foo" = "" ∧
    extractTranslation_p2c "foo" "排灣語：foo" = "" ∧
    extractTranslation_c2p "bar" "中文：bar" = "" ∧
    extractTranslation_p2c "foo" "某某：bar\n排灣語：foo" = "" ∧
    extractTranslation_c2p "bar" "中文：bar\n某某：foo" = "" :=
  ⟨rfl, rfl, rfl, rfl, rfl, rfl, rfl, rfl, rfl⟩

/-! ### Claim C4 -/

/-- C4 counterexample: an entry whose fields cannot be read is not merely
skipped — it aborts the rest of the construction: the well-formed entry
`("a","b")` listed after it is dropped from the index, although on its own
it builds fine. -/
theorem C4_malformed_aborts_counterexample :
    buildVocabularyDict_p2c [RawEntry.malformed, RawEntry.obj (some "a") (some "b")] = [] ∧
    buildVocabularyDict_p2c [RawEntry.obj (some "a") (some "b")] = [("a", ["b"])] ∧
    List.lookup "a" (buildVocabularyDict_p2c
      [RawEntry.malformed, RawEntry.obj (some "a") (some "b")]) = none :=
  ⟨rfl, rfl, rfl⟩

/-- C4 (amended): in both directions, an INVALID but readable entry (empty
source or target after trimming, or a sentinel target) is silently skipped
and processing continues with the remaining entries unchanged; an entry
whose fields cannot be read raises inside the loop, which the build
function catches: the dict built so far is returned and the remaining
entries (well-formed or not) are not processed. No exception escapes the
build in either case. -/
theorem C4_skip_and_continue :
    (∀ (swapKV : Bool) (p c : Option String) (rest : List RawEntry) (d : Dict),
        (pyStrip (p.getD "") = "" ∨ pyStrip (c.getD "") = "" ∨
         pyStrip (c.getD "") = "[虛]" ∨ pyStrip (c.getD "") = "[虛") →
        buildVocabLoop swapKV (RawEntry.obj p c :: rest) d = buildVocabLoop swapKV rest d) ∧
    (∀ (swapKV : Bool) (rest : List RawEntry) (d : Dict),
        buildVocabLoop swapKV (RawEntry.malformed :: rest) d = d) := by
  constructor
  · intro swapKV p c rest d h
    simp only [buildVocabLoop]
    by_cases h1 : pyStrip (p.getD "") = "" ∨ pyStrip (c.getD "") = ""
    · rw [if_pos h1]
    · rw [if_neg h1]
      have h2 : pyStrip (c.getD "") = "[虛]" ∨ pyStrip (c.getD "") = "[虛" := by
        rcases h with h | h | h | h
        · exact absurd (Or.inl h) h1
        · exact absurd (Or.inr h) h1
        · exact Or.inl h
        · exact Or.inr h
      rw [if_pos h2]
  · intro swapKV rest d
    simp [buildVocabLoop]

theorem C4_skip_and_continue_witness :
    buildVocabLoop false [RawEntry.obj (some " ") (some "x"), RawEntry.obj (some "a") (some "b")] []
      = buildVocabLoop false [RawEntry.obj (some "a") (some "b")] [] ∧
    buildVocabLoop true [RawEntry.malformed, RawEntry.obj (some "a") (some "b")] [("k", ["v"])]
      = [("k", ["v"])] := by
  constructor
  · exact C4_skip_and_continue.1 false (some " ") (some "x")
      [RawEntry.obj (some "a") (some "b")] [] (Or.inl rfl)
  · exact C4_skip_and_continue.2 true [RawEntry.obj (some "a") (some "b")] [("k", ["v"])]

/-! ### Claim C10 -/

/-- C10: `translate` never returns the empty string for a non-empty input —
any value it returns is either the input itself or a `", "`-join headed by a
non-empty deduplicated element, so the output is empty only if the input is;
and an all-whitespace input that resolves nowhere is echoed back unchanged
rather than rejected. -/
theorem C10_nonempty_output :
    (∀ (V : Type) (vocab : Dict) (ratio : String → String → Nat)
        (extractFn : String → String → String) (oe : Except Unit V) (me : V)
        (search : V → Except Unit (List String)) (text s : String),
        translateCore vocab ratio extractFn oe me search text = Except.ok s →
        text ≠ "" → s ≠ "") ∧
    translate_p2c ([] : Dict) (fun _ _ => 0) (Except.ok (0 : Nat)) 0
      (fun _ => Except.ok []) "   " = Except.ok "   " := by
  constructor
  · intro V vocab ratio extractFn oe me search text s h htext
    rcases translateCore_ok_shape vocab ratio extractFn oe me search text s h with
      h1 | ⟨x, xs, h2, h3⟩
    · rw [h1]; exact htext
    · rw [h2]; exact pyJoin_ne_of_ne x xs h3
  · rfl

theorem C10_nonempty_output_witness :
    translate_p2c [("a", ["X"])] (fun _ _ => 0) (Except.ok (0 : Nat)) 0
      (fun _ => Except.ok []) "a" = Except.ok "X" ∧ ("X" : String) ≠ "" := by
  constructor
  · rfl
  · exact C10_nonempty_output.1 Nat [("a", ["X"])] (fun _ _ => 0) extractTranslation_p2c
      (Except.ok 0) 0 (fun _ => Except.ok []) "a" "X" rfl (by decide)

/-! ### Claim C6 -/

/-- C6: exact-match precedence — in both directions, for every query present
verbatim (case-sensitively) as a key of the index, the returned join
contains every meaning stored for that key as an element of the
deduplicated list, whatever similarity scores the fuzzy scan assigns to
other keys (the `ratio` function is arbitrary here). -/
theorem C6_exact_match_precedence {V : Type} (vocab : Dict) (ratio : String → String → Nat)
    (extractFn : String → String → String) (oe : Except Unit V) (me : V)
    (search : V → Except Unit (List String)) (text : String) (ms : List String)
    (hlook : List.lookup text vocab = some ms) (hne : ms ≠ [])
    (hprops : ∀ m ∈ ms, pyStrip m = m ∧ m ≠ "") :
    ∃ l, translateCore vocab ratio extractFn oe me search text = Except.ok (pyJoin ", " l) ∧
      ∀ m ∈ ms, m ∈ l := by
  have hgd : (List.lookup text vocab).getD [] = ms := by rw [hlook]; rfl
  obtain ⟨ext, hext⟩ :=
    fuzzyScan_acc_extends ratio text vocab 0 ((List.lookup text vocab).getD [])
  rw [hgd] at hext
  have hAccne : (fuzzyScan ratio text vocab 0 ((List.lookup text vocab).getD [])).2 ≠ [] := by
    rw [hgd, hext]
    intro hc
    exact hne (List.append_eq_nil.mp hc).1
  have hAcc := translateAcc_of_nonempty vocab ratio extractFn oe me search text hAccne
  rw [hgd, hext] at hAcc
  refine ⟨dedupKeepOrder (ms ++ ext) [], ?_, ?_⟩
  · unfold translateCore
    rw [hAcc]
    have hdne : dedupKeepOrder (ms ++ ext) [] ≠ [] := by
      intro hc
      obtain ⟨m0, hm0⟩ := List.exists_mem_of_ne_nil ms hne
      have hmem := dedup_mem_of_mem (ms ++ ext) [] m0 (List.mem_append.mpr (Or.inl hm0))
        (hprops m0 hm0).1 (hprops m0 hm0).2
      rw [hc] at hmem
      cases hmem
    simp [translateFinish, hdne]
  · intro m hm
    exact dedup_mem_of_mem (ms ++ ext) [] m (List.mem_append.mpr (Or.inl hm))
      (hprops m hm).1 (hprops m hm).2

theorem C6_exact_match_precedence_witness :
    ∃ l, translateCore [("a", ["X"])] (fun _ _ => 90) extractTranslation_p2c
      (Except.ok (0 : Nat)) 0 (fun _ => Except.ok []) "a" = Except.ok (pyJoin ", " l) ∧
      ∀ m ∈ (["X"] : List String), m ∈ l := by
  refine C6_exact_match_precedence [("a", ["X"])] (fun _ _ => 90) extractTranslation_p2c
    (Except.ok 0) 0 (fun _ => Except.ok []) "a" ["X"] rfl (by decide) ?_
  intro m hm
  rw [List.mem_singleton] at hm
  subst hm
  exact ⟨rfl, by decide⟩

/-! ### Claim C8 -/

theorem dedup_spec : ∀ (l acc : List String),
    dedupKeepOrder l acc =
      acc ++ (firstOccur ((l.map pyStrip).filter (fun s => decide (s ≠ "")))).filter
        (fun y => decide (y ∉ acc)) := by
  intro l
  induction l with
  | nil => intro acc; simp [dedupKeepOrder, firstOccur]
  | cons t rest ih =>
    intro acc
    simp only [dedupKeepOrder, List.map_cons, List.filter_cons]
    by_cases hc : pyStrip t = ""
    · have g1 : ¬(pyStrip t ≠ "" ∧ pyStrip t ∉ acc) := by simp [hc]
      have g2 : ¬((fun s => decide (s ≠ "")) (pyStrip t) = true) := by simp [hc]
      rw [if_neg g1, if_neg g2]
      exact ih acc
    · have g2 : (fun s => decide (s ≠ "")) (pyStrip t) = true := by simp [hc]
      rw [if_pos g2]
      simp only [firstOccur]
      by_cases hacc : pyStrip t ∈ acc
      · have g1 : ¬(pyStrip t ≠ "" ∧ pyStrip t ∉ acc) := by simp [hacc]
        rw [if_neg g1, ih acc, List.filter_cons]
        have g3 : ¬((fun y => decide (y ∉ acc)) (pyStrip t) = true) := by simp [hacc]
        rw [if_neg g3, List.filter_filter]
        congr 1
        apply List.filter_congr
        intro y _
        by_cases hy : y ∈ acc
        · simp [hy]
        · have hyne : y ≠ pyStrip t := fun he => hy (he ▸ hacc)
          simp [hy, hyne]
      · have g1 : pyStrip t ≠ "" ∧ pyStrip t ∉ acc := ⟨hc, hacc⟩
        rw [if_pos g1, ih (acc ++ [pyStrip t]), List.filter_cons]
        have g3 : (fun y => decide (y ∉ acc)) (pyStrip t) = true := by simp [hacc]
        rw [if_pos g3, List.filter_filter, List.append_assoc, List.singleton_append]
        congr 2
        apply List.filter_congr
        intro y _
        by_cases hy : y ∈ acc
        · simp [hy, List.mem_append]
        · by_cases hyc : y = pyStrip t
          · simp [hyc, List.mem_append]
          · simp [hy, hyc, List.mem_append]

/-- C8: the in-code dedup loop refines the spec's pipeline — trim each
element, drop empty strings, keep only the first occurrence of each
distinct value in order of first appearance; in particular a query with
exact meanings `["A","B"]` whose best fuzzy match adds `["B","C"]` yields
`"A, B, C"`. -/
theorem C8_dedup_first_seen :
    (∀ l : List String, dedupKeepOrder l [] = specDedup l) ∧
    translate_p2c [("q", ["A", "B"]), ("k", ["B", "C"])] (fun _ _ => 85)
      (Except.ok (0 : Nat)) 0 (fun _ => Except.ok []) "q" = Except.ok "A, B, C" := by
  constructor
  · intro l
    rw [dedup_spec l []]
    simp [specDedup]
  · rfl

/-! ### Claim C9 -/

theorem upd_list_inv (Pv : String → Prop) (l : List String) (v : String)
    (hnd : l.Nodup) (hall : ∀ m ∈ l, Pv m) (hv : Pv v) :
    (if v ∈ l then l else l ++ [v]) ≠ [] ∧ (if v ∈ l then l else l ++ [v]).Nodup ∧
      ∀ m ∈ (if v ∈ l then l else l ++ [v]), Pv m := by
  by_cases hvin : v ∈ l
  · rw [if_pos hvin]
    exact ⟨List.ne_nil_of_mem hvin, hnd, hall⟩
  · rw [if_neg hvin]
    refine ⟨by simp, ?_, ?_⟩
    · simp [List.nodup_append, hnd, hvin]
    · intro m hm
      rcases List.mem_append.mp hm with h | h
      · exact hall m h
      · simp only [List.mem_singleton] at h
        subst h
        exact hv

theorem addMeaning_inv (Pk Pv : String → Prop) (d : Dict)
    (hd : ∀ q ∈ d, Pk q.1 ∧ q.2 ≠ [] ∧ q.2.Nodup ∧ ∀ m ∈ q.2, Pv m)
    (k v : String) (hk : Pk k) (hv : Pv v) :
    ∀ q ∈ addMeaning d k v, Pk q.1 ∧ q.2 ≠ [] ∧ q.2.Nodup ∧ ∀ m ∈ q.2, Pv m := by
  intro q hq
  simp only [addMeaning] at hq
  rw [List.mem_map] at hq
  obtain ⟨p, hp, hfp⟩ := hq
  have hpd : p ∈ d ∨ p = (k, []) := by
    by_cases hl : (List.lookup k d).isSome
    · rw [if_pos hl] at hp
      exact Or.inl hp
    · rw [if_neg hl] at hp
      rcases List.mem_append.mp hp with h | h
      · exact Or.inl h
      · simp only [List.mem_singleton] at h
        exact Or.inr h
  have hP : Pk p.1 ∧ p.2.Nodup ∧ ∀ m ∈ p.2, Pv m := by
    rcases hpd with hmem | hnew
    · obtain ⟨h1, _, h3, h4⟩ := hd p hmem
      exact ⟨h1, h3, h4⟩
    · subst hnew
      exact ⟨hk, by simp, by simp⟩
  subst hfp
  by_cases hpk : p.1 = k
  · rw [if_pos hpk]
    have hupd := upd_list_inv Pv p.2 v hP.2.1 hP.2.2 hv
    exact ⟨hP.1, hupd.1, hupd.2.1, hupd.2.2⟩
  · rw [if_neg hpk]
    rcases hpd with hmem | hnew
    · exact hd p hmem
    · exact absurd (by rw [hnew]) hpk

theorem buildVocabLoop_inv (swapKV : Bool) (Pk Pv : String → Prop)
    (hins : ∀ (p c : Option String),
      pyStrip (p.getD "") ≠ "" → pyStrip (c.getD "") ≠ "" →
      pyStrip (c.getD "") ≠ "[虛]" → pyStrip (c.getD "") ≠ "[虛" →
      (swapKV = false → Pk (pyStrip (p.getD "")) ∧ Pv (pyStrip (c.getD ""))) ∧
      (swapKV = true → Pk (pyStrip (c.getD "")) ∧ Pv (pyStrip (p.getD "")))) :
    ∀ (entries : List RawEntry) (d : Dict),
      (∀ q ∈ d, Pk q.1 ∧ q.2 ≠ [] ∧ q.2.Nodup ∧ ∀ m ∈ q.2, Pv m) →
      ∀ q ∈ buildVocabLoop swapKV entries d,
        Pk q.1 ∧ q.2 ≠ [] ∧ q.2.Nodup ∧ ∀ m ∈ q.2, Pv m := by
  intro entries
  induction entries with
  | nil => intro d hd; simpa [buildVocabLoop] using hd
  | cons e rest ih =>
    intro d hd
    cases e with
    | malformed => simpa [buildVocabLoop] using hd
    | obj p c =>
      simp only [buildVocabLoop]
      by_cases h1 : pyStrip (p.getD "") = "" ∨ pyStrip (c.getD "") = ""
      · rw [if_pos h1]
        exact ih d hd
      · rw [if_neg h1]
        by_cases h2 : pyStrip (c.getD "") = "[虛]" ∨ pyStrip (c.getD "") = "[虛"
        · rw [if_pos h2]
          exact ih d hd
        · rw [if_neg h2]
          push_neg at h1 h2
          have hkv := hins p c h1.1 h1.2 h2.1 h2.2
          cases swapKV with
          | false =>
            rw [if_neg (by simp)]
            obtain ⟨hk, hv⟩ := hkv.1 rfl
            exact ih _ (addMeaning_inv Pk Pv d hd _ _ hk hv)
          | true =>
            rw [if_pos (by simp)]
            obtain ⟨hk, hv⟩ := hkv.2 rfl
            exact ih _ (addMeaning_inv Pk Pv d hd _ _ hk hv)

/-- C9: built-index invariant — in both directions, every key of the built
index is a non-empty trimmed string mapped to a non-empty duplicate-free
list of non-empty trimmed meanings; the sentinel `"[虛]"` / `"[虛"` never
appears as a paiwan→chinese meaning nor as a chinese→paiwan key; and the
raw pair `("word1","[虛]")` contributes no entry to either index, so lookup
of `"word1"` finds nothing. -/
theorem C9_built_index_invariant :
    (∀ (entries : List RawEntry) (q : String × List String),
        q ∈ buildVocabularyDict_p2c entries →
        pyStrip q.1 = q.1 ∧ q.1 ≠ "" ∧ q.2 ≠ [] ∧ q.2.Nodup ∧
          ∀ m ∈ q.2, pyStrip m = m ∧ m ≠ "" ∧ m ≠ "[虛]" ∧ m ≠ "[虛") ∧
    (∀ (entries : List RawEntry) (q : String × List String),
        q ∈ buildVocabularyDict_c2p entries →
        pyStrip q.1 = q.1 ∧ q.1 ≠ "" ∧ q.1 ≠ "[虛]" ∧ q.1 ≠ "[虛" ∧ q.2 ≠ [] ∧
          q.2.Nodup ∧ ∀ m ∈ q.2, pyStrip m = m ∧ m ≠ "") ∧
    buildVocabularyDict_p2c [RawEntry.obj (some "word1") (some "[虛]")] = [] ∧
    buildVocabularyDict_c2p [RawEntry.obj (some "word1") (some "[虛]")] = [] ∧
    List.lookup "word1"
      (buildVocabularyDict_p2c [RawEntry.obj (some "word1") (some "[虛]")]) = none := by
  refine ⟨?_, ?_, rfl, rfl, rfl⟩
  · intro entries q hq
    have := buildVocabLoop_inv false
      (fun s => pyStrip s = s ∧ s ≠ "")
      (fun s => pyStrip s = s ∧ s ≠ "" ∧ s ≠ "[虛]" ∧ s ≠ "[虛")
      (fun p c hp hc hs1 hs2 =>
        ⟨fun _ => ⟨⟨pyStrip_idem _, hp⟩, ⟨pyStrip_idem _, hc, hs1, hs2⟩⟩,
         fun hab => absurd hab (by simp)⟩)
      entries [] (by intro z hz; cases hz) q hq
    obtain ⟨⟨hk1, hk2⟩, hne, hnd, hall⟩ := this
    exact ⟨hk1, hk2, hne, hnd, fun m hm => (hall m hm)⟩
  · intro entries q hq
    have := buildVocabLoop_inv true
      (fun s => pyStrip s = s ∧ s ≠ "" ∧ s ≠ "[虛]" ∧ s ≠ "[虛")
      (fun s => pyStrip s = s ∧ s ≠ "")
      (fun p c hp hc hs1 hs2 =>
        ⟨fun hab => absurd hab (by simp),
         fun _ => ⟨⟨pyStrip_idem _, hc, hs1, hs2⟩, ⟨pyStrip_idem _, hp⟩⟩⟩)
      entries [] (by intro z hz; cases hz) q hq
    obtain ⟨⟨hk1, hk2, hk3, hk4⟩, hne, hnd, hall⟩ := this
    exact ⟨hk1, hk2, hk3, hk4, hne, hnd, hall⟩

theorem C9_built_index_invariant_witness :
    pyStrip "a" = "a" ∧ "a" ≠ "" ∧ (["b"] : List String) ≠ [] ∧
      (["b"] : List String).Nodup ∧
      ∀ m ∈ (["b"] : List String), pyStrip m = m ∧ m ≠ "" ∧ m ≠ "[虛]" ∧ m ≠ "[虛" := by
  have h := C9_built_index_invariant.1 [RawEntry.obj (some "a") (some "b")] ("a", ["b"])
    (by exact List.mem_singleton_self ("a", ["b"]))
  exact h
